import Mathlib

/-!
Shallow embedding of `histomicstk/features/FeatureExtraction.py`.

The source file has two functions:

* `GetBounds(bbox, delta, M, N)` — clips a bounding box expanded by `delta`
  to the image extents (`max(0, min-delta)`, `min(size-1, max+delta)`).
* `FeatureExtraction(Label, In, Ic, K, Fs, Delta)` — iterates over the
  regions of a label image, building for each region a neighborhood window,
  a nucleus mask (`Label[window] == label`), an any-label mask
  (`Label[window] > 0`), a disk-dilated nucleus mask
  (`dilation(Nucleus, disk(Delta))`), and a cytoplasm mask
  (`np.logical_xor(Mask, dilation(Nucleus, Disk))`), then assembles one
  feature row per region into a table.

Pixels are indexed over `ℤ` (row, col); a label image carries its extents
`M × N` and a label function.  Masks over a neighborhood window use
window-local coordinates, exactly like the numpy array slices in the code.
External collaborators (`regionprops` scalar attributes, `ComputeFSDs`,
texture/gradient/intensity statistics, `np.gradient`, `canny`) are
parameters of the embedding; the orchestration logic itself is embedded
faithfully.
-/

/-- A 2-D label image: an `M × N` grid of nonnegative integers where `0` is
background and each positive value is a region label.  `pix` is total over
`ℤ × ℤ`; concrete instances return `0` outside `[0, M) × [0, N)`. -/
structure Img where
  M : ℤ
  N : ℤ
  pix : ℤ → ℤ → ℕ

/-- Embedding of `GetBounds(bbox, delta, M, N)`.  `bbox` is
`(min_row, min_col, max_row, max_col)` with exclusive maxima (the skimage
`regionprops` convention); the result is
`(min_row_out, max_row_out, min_col_out, max_col_out)` where the minima are
clamped below by `0` and the maxima are clamped above by `M-1` / `N-1`. -/
def GetBounds (bbox : ℤ × ℤ × ℤ × ℤ) (delta M N : ℤ) : ℤ × ℤ × ℤ × ℤ :=
  let min_row := bbox.1
  let min_col := bbox.2.1
  let max_row := bbox.2.2.1
  let max_col := bbox.2.2.2
  (max 0 (min_row - delta), min (M - 1) (max_row + delta),
    max 0 (min_col - delta), min (N - 1) (max_col + delta))

/-- A neighborhood window: the bounds returned by `GetBounds`, with
`maxRow`/`maxCol` exclusive (they are used as python slice upper bounds). -/
structure Window where
  minRow : ℤ
  maxRow : ℤ
  minCol : ℤ
  maxCol : ℤ

/-- The window built from a region bounding box, as in
`GetBounds(regions[i].bbox, Delta, size_x, size_y)`. -/
def windowOf (bbox : ℤ × ℤ × ℤ × ℤ) (delta M N : ℤ) : Window :=
  let b := GetBounds bbox delta M N
  ⟨b.1, b.2.1, b.2.2.1, b.2.2.2⟩

/-- Window-local index `(i, j)` lies inside the window array of shape
`(maxRow - minRow) × (maxCol - minCol)`. -/
def inWin (w : Window) (i j : ℤ) : Bool :=
  decide (0 ≤ i ∧ i < w.maxRow - w.minRow ∧ 0 ≤ j ∧ j < w.maxCol - w.minCol)

/-- The finite set of window-local indices (the index set of the numpy
slice `Label[min_row:max_row, min_col:max_col]`). -/
def winIdx (w : Window) : Finset (ℤ × ℤ) :=
  Finset.Ico 0 (w.maxRow - w.minRow) ×ˢ Finset.Ico 0 (w.maxCol - w.minCol)

/-- Global pixel `(r, c)` is covered by the window slice
(`minRow ≤ r < maxRow`, `minCol ≤ c < maxCol`). -/
def globalInWindow (w : Window) (r c : ℤ) : Prop :=
  w.minRow ≤ r ∧ r < w.maxRow ∧ w.minCol ≤ c ∧ c < w.maxCol

instance (w : Window) (r c : ℤ) : Decidable (globalInWindow w r c) :=
  inferInstanceAs (Decidable (w.minRow ≤ r ∧ r < w.maxRow ∧ w.minCol ≤ c ∧ c < w.maxCol))

/-- Embedding of `Nucleus = (Label[min_row:max_row, min_col:max_col] ==
regions[i].label)`: boolean mask in window-local coordinates, true exactly
where the label image equals the region's own label. -/
def NucleusMask (L : Img) (w : Window) (lab : ℕ) (i j : ℤ) : Bool :=
  inWin w i j && decide (L.pix (w.minRow + i) (w.minCol + j) = lab)

/-- Embedding of `Mask = (Label[min_row:max_row, min_col:max_col] > 0)`:
boolean mask in window-local coordinates, true where the label image holds
any positive label. -/
def AnyLabelMask (L : Img) (w : Window) (i j : ℤ) : Bool :=
  inWin w i j && decide (0 < L.pix (w.minRow + i) (w.minCol + j))

/-- Embedding of `dilation(mask, disk(delta))` on a window-shaped array:
output is true at `(i, j)` iff some in-window point of the mask lies within
Euclidean distance `delta` (skimage `disk(r)` holds offsets with
`dx² + dy² ≤ r²`; points outside the array are treated as false). -/
def dilate (w : Window) (mask : ℤ → ℤ → Bool) (delta : ℤ) (i j : ℤ) : Bool :=
  inWin w i j &&
    decide (∃ p ∈ winIdx w,
      mask p.1 p.2 = true ∧ (i - p.1) ^ 2 + (j - p.2) ^ 2 ≤ delta ^ 2)

/-- Embedding of `cytoplasm = np.logical_xor(Mask, dilation(Nucleus, Disk))`
in window-local coordinates. -/
def CytoplasmMask (L : Img) (w : Window) (lab : ℕ) (delta : ℤ) (i j : ℤ) : Bool :=
  Bool.xor (AnyLabelMask L w i j) (dilate w (NucleusMask L w lab) delta i j)

/-- Embedding of `regionCoords = np.argwhere(cytoplasm == 1)` followed by
adding `min_row` / `min_col`: the set of global pixel coordinates of the
cytoplasm mask. -/
def CytoplasmCoords (L : Img) (w : Window) (lab : ℕ) (delta : ℤ) : Finset (ℤ × ℤ) :=
  ((winIdx w).filter fun q => CytoplasmMask L w lab delta q.1 q.2 = true).image
    fun q => (q.1 + w.minRow, q.2 + w.minCol)

/-- The index set of an image: all pixels of `[0, M) × [0, N)`. -/
def pixelDomain (img : Img) : Finset (ℤ × ℤ) :=
  Finset.Ico 0 img.M ×ˢ Finset.Ico 0 img.N

/-- The pixels of the image carrying label `lab` (the `coords` attribute of
the region labelled `lab`). -/
def labelPixels (img : Img) (lab : ℕ) : Finset (ℤ × ℤ) :=
  (pixelDomain img).filter fun p => img.pix p.1 p.2 = lab

/-- The `regionprops` bounding box of the region labelled `lab`:
`(min_row, min_col, max_row, max_col)` with exclusive maxima; `none` when
the label is absent. -/
def bboxOf (img : Img) (lab : ℕ) : Option (ℤ × ℤ × ℤ × ℤ) :=
  let s := labelPixels img lab
  if h : s.Nonempty then
    some ((s.image Prod.fst).min' (h.image Prod.fst),
      (s.image Prod.snd).min' (h.image Prod.snd),
      (s.image Prod.fst).max' (h.image Prod.fst) + 1,
      (s.image Prod.snd).max' (h.image Prod.snd) + 1)
  else
    none

/-- The distinct positive labels present in the image. -/
def positiveLabels (img : Img) : Finset ℕ :=
  ((pixelDomain img).image fun p => img.pix p.1 p.2).filter fun v => 0 < v

/-- Models the external `regionprops` enumerator through its consumed
contract (spec §4.1): one region per distinct positive label present in the
image, enumerated in ascending label order. -/
def sortedPositiveLabels (img : Img) : List ℕ :=
  (positiveLabels img).sort (· ≤ ·)

/-- The exact value of the float64 constant `np.pi`. -/
def npPi : ℚ := 884279719003555 / 281474976710656

/-- Embedding of the Circularity computation:
`numerator = 4 * np.pi * Area[i]`, `denominator = Perimeter[i] ** 2`,
`Circularity[i] = numerator / denominator if denominator else 0`. -/
def Circularity (piVal area perim : ℚ) : ℚ :=
  let numerator := 4 * piVal * area
  let denominator := perim ^ 2
  if denominator = 0 then 0 else numerator / denominator

/-- Scalar attributes read off a `regionprops` region record (external
collaborator values, §4.1): centroid, area, perimeter, eccentricity, axis
lengths, extent, solidity. -/
structure RegionAttrs where
  centroidX : ℚ
  centroidY : ℚ
  area : ℚ
  perimeter : ℚ
  eccentricity : ℚ
  majorAxisLength : ℚ
  minorAxisLength : ℚ
  extent : ℚ
  solidity : ℚ

/-- The external feature collaborators (black-box numeric routines, §4.4 and
§9): Fourier shape descriptors, texture/gradient/intensity statistics, the
gradient-magnitude field `sqrt(Gx² + Gy²)` and the canny edge map. -/
structure Collaborators where
  computeFSDs : (ℤ → ℤ → Bool) → ℕ → ℕ → List ℚ
  computeTextureFeatures : (ℤ → ℤ → ℚ) → Finset (ℤ × ℤ) → List ℚ
  computeGradientFeatures :
    (ℤ → ℤ → ℚ) → Finset (ℤ × ℤ) → (ℤ → ℤ → ℚ) → (ℤ → ℤ → Bool) → List ℚ
  computeIntensityFeatures : (ℤ → ℤ → ℚ) → Finset (ℤ × ℤ) → List ℚ
  gradientMag : (ℤ → ℤ → ℚ) → ℤ → ℤ → ℚ
  canny : (ℤ → ℤ → ℚ) → ℤ → ℤ → Bool

/-- One row of the output table: every per-region value the loop body
writes into the pre-allocated arrays. -/
structure FeatureRow where
  X : ℚ
  Y : ℚ
  area : ℚ
  perimeter : ℚ
  eccentricity : ℚ
  circularity : ℚ
  majorAxisLength : ℚ
  minorAxisLength : ℚ
  extent : ℚ
  solidity : ℚ
  FSD : List ℚ
  hematoxylinTexture : List ℚ
  eosinTexture : List ℚ
  hematoxylinGradient : List ℚ
  eosinGradient : List ℚ
  hematoxylinIntensity : List ℚ
  eosinIntensity : List ℚ

/-- The body of the per-region loop of `FeatureExtraction`: window bounds
via `GetBounds`, nucleus mask, FSDs, nucleus-pixel statistics, cytoplasm
mask via xor with the disk-dilated nucleus, cytoplasm-pixel statistics. -/
def buildRow (L : Img) (In Ic : ℤ → ℤ → ℚ) (K Fs : ℕ) (Delta : ℤ)
    (attrs : ℕ → RegionAttrs) (C : Collaborators)
    (diffGn diffGc : ℤ → ℤ → ℚ) (cannyN cannyC : ℤ → ℤ → Bool)
    (lab : ℕ) : FeatureRow :=
  let a := attrs lab
  let bbox := (bboxOf L lab).getD (0, 0, 0, 0)
  let w := windowOf bbox Delta L.M L.N
  let nucleiCoords := labelPixels L lab
  let cytoCoords := CytoplasmCoords L w lab Delta
  ⟨a.centroidX, a.centroidY, a.area, a.perimeter, a.eccentricity,
    Circularity npPi a.area a.perimeter,
    a.majorAxisLength, a.minorAxisLength, a.extent, a.solidity,
    C.computeFSDs (NucleusMask L w lab) K Fs,
    C.computeTextureFeatures In nucleiCoords,
    C.computeTextureFeatures Ic cytoCoords,
    C.computeGradientFeatures In nucleiCoords diffGn cannyN,
    C.computeGradientFeatures Ic cytoCoords diffGc cannyC,
    C.computeIntensityFeatures In nucleiCoords,
    C.computeIntensityFeatures Ic cytoCoords⟩

/-- Embedding of `FeatureExtraction(Label, In, Ic, K, Fs, Delta)`: global
gradient/edge fields computed once, then one feature row per region in
enumeration order. -/
def FeatureExtraction (L : Img) (In Ic : ℤ → ℤ → ℚ) (K Fs : ℕ) (Delta : ℤ)
    (attrs : ℕ → RegionAttrs) (C : Collaborators) : List FeatureRow :=
  let diffGn := C.gradientMag In
  let cannyN := C.canny In
  let diffGc := C.gradientMag Ic
  let cannyC := C.canny Ic
  (sortedPositiveLabels L).map
    (buildRow L In Ic K Fs Delta attrs C diffGn diffGc cannyN cannyC)

/-- Concrete 5 × 5 label image with a single one-pixel region labelled 1 at
(2, 2). -/
def imgC2 : Img := ⟨5, 5, fun r c => if r = 2 ∧ c = 2 then 1 else 0⟩

/-- The neighborhood window of the region labelled 1 of `imgC2` with
`Delta = 1`. -/
def wC2 : Window := windowOf ((bboxOf imgC2 1).getD (0, 0, 0, 0)) 1 5 5

/-- Concrete 12 × 12 label image with two adjacent non-overlapping regions:
region 1 is the single pixel (5, 5); region 2 holds (5, 6), (4, 6), (3, 6)
and (3, 7), touching region 1 at (5, 6). -/
def imgC3 : Img :=
  ⟨12, 12, fun r c =>
    if r = 5 ∧ c = 5 then 1
    else if (r = 5 ∧ c = 6) ∨ (r = 4 ∧ c = 6) ∨ (r = 3 ∧ c = 6) ∨ (r = 3 ∧ c = 7) then 2
    else 0⟩

/-- The neighborhood window of region 1 of `imgC3` with `Delta = 2`. -/
def w1C3 : Window := windowOf ((bboxOf imgC3 1).getD (0, 0, 0, 0)) 2 12 12

/-- The neighborhood window of region 2 of `imgC3` with `Delta = 2`. -/
def w2C3 : Window := windowOf ((bboxOf imgC3 2).getD (0, 0, 0, 0)) 2 12 12

/-- Concrete 50 × 50 label image with one rectangular region of label 1
covering rows 10–20 and columns 10–20. -/
def img50 : Img :=
  ⟨50, 50, fun r c => if 10 ≤ r ∧ r ≤ 20 ∧ 10 ≤ c ∧ c ≤ 20 then 1 else 0⟩

/-- Concrete all-background label image. -/
def imgZero : Img := ⟨4, 4, fun _ _ => 0⟩

/-- A trivial intensity image, used to instantiate the pipeline. -/
def constIntensity : ℤ → ℤ → ℚ := fun _ _ => 0

/-- Trivial region attributes, used to instantiate the pipeline. -/
def trivAttrs : ℕ → RegionAttrs := fun _ => ⟨0, 0, 0, 0, 0, 0, 0, 0, 0⟩

/-- Trivial collaborators, used to instantiate the pipeline. -/
def trivCollab : Collaborators :=
  ⟨fun _ _ _ => [], fun _ _ => [], fun _ _ _ _ => [], fun _ _ => [],
    fun _ _ _ => 0, fun _ _ _ => false⟩

/-- Claim C4: Circularity is 0 when the perimeter is 0 and otherwise equals
`4π · Area / Perimeter²` (the code guards on `denominator = Perimeter²`,
which vanishes exactly when the perimeter does). -/
theorem circularity_zero_guard (piVal area perim : ℚ) :
    (perim = 0 → Circularity piVal area perim = 0) ∧
      (perim ≠ 0 → Circularity piVal area perim = 4 * piVal * area / perim ^ 2) := by
  constructor
  · intro h
    simp [Circularity, h]
  · intro h
    have hp : perim ^ 2 ≠ 0 := pow_ne_zero 2 h
    simp [Circularity, hp]

/-- Witness for C4: both branches at concrete inputs. -/
theorem circularity_zero_guard_witness :
    Circularity 3 1 0 = 0 ∧ Circularity 3 1 2 = 4 * 3 * 1 / 2 ^ 2 :=
  ⟨(circularity_zero_guard 3 1 0).1 rfl,
    (circularity_zero_guard 3 1 2).2 (by norm_num)⟩

/-- Claim C5: for any region bounding box that is valid for an `M × N`
image (nonempty, inside the image) and any `Delta ≥ 0`, the bounds returned
by `GetBounds` satisfy `0 ≤ min_row ≤ max_row ≤ M - 1` and
`0 ≤ min_col ≤ max_col ≤ N - 1`: clipped, never negative or out of range. -/
theorem getBounds_clipped (a b c d delta M N : ℤ) (hdel : 0 ≤ delta)
    (ha : 0 ≤ a) (hac : a < c) (hcM : c ≤ M)
    (hb : 0 ≤ b) (hbd : b < d) (hdN : d ≤ N) :
    0 ≤ (GetBounds (a, b, c, d) delta M N).1 ∧
      (GetBounds (a, b, c, d) delta M N).1 ≤ (GetBounds (a, b, c, d) delta M N).2.1 ∧
      (GetBounds (a, b, c, d) delta M N).2.1 ≤ M - 1 ∧
      0 ≤ (GetBounds (a, b, c, d) delta M N).2.2.1 ∧
      (GetBounds (a, b, c, d) delta M N).2.2.1 ≤ (GetBounds (a, b, c, d) delta M N).2.2.2 ∧
      (GetBounds (a, b, c, d) delta M N).2.2.2 ≤ N - 1 := by
  simp only [GetBounds]
  omega

/-- Witness for C5: the bounds of a 10–20 × 10–20 box in a 50 × 50 image
with `Delta = 8` are in range. -/
theorem getBounds_clipped_witness :
    0 ≤ (GetBounds (10, 10, 21, 21) 8 50 50).1 ∧
      (GetBounds (10, 10, 21, 21) 8 50 50).1 ≤ (GetBounds (10, 10, 21, 21) 8 50 50).2.1 ∧
      (GetBounds (10, 10, 21, 21) 8 50 50).2.1 ≤ 50 - 1 ∧
      0 ≤ (GetBounds (10, 10, 21, 21) 8 50 50).2.2.1 ∧
      (GetBounds (10, 10, 21, 21) 8 50 50).2.2.1 ≤ (GetBounds (10, 10, 21, 21) 8 50 50).2.2.2 ∧
      (GetBounds (10, 10, 21, 21) 8 50 50).2.2.2 ≤ 50 - 1 :=
  getBounds_clipped 10 10 21 21 8 50 50 (by decide) (by decide) (by decide)
    (by decide) (by decide) (by decide) (by decide)

theorem mem_winIdx (w : Window) (q : ℤ × ℤ) :
    q ∈ winIdx w ↔ inWin w q.1 q.2 = true := by
  simp only [winIdx, inWin, Finset.mem_product, Finset.mem_Ico, decide_eq_true_eq]
  tauto

theorem mem_cytoplasmCoords (L : Img) (w : Window) (lab : ℕ) (delta : ℤ) (p : ℤ × ℤ) :
    p ∈ CytoplasmCoords L w lab delta ↔
      inWin w (p.1 - w.minRow) (p.2 - w.minCol) = true ∧
        CytoplasmMask L w lab delta (p.1 - w.minRow) (p.2 - w.minCol) = true := by
  simp only [CytoplasmCoords, Finset.mem_image, Finset.mem_filter]
  constructor
  · rintro ⟨q, ⟨hq, hcy⟩, rfl⟩
    have h1 := (mem_winIdx w q).1 hq
    simpa using And.intro h1 hcy
  · rintro ⟨h1, h2⟩
    refine ⟨(p.1 - w.minRow, p.2 - w.minCol), ⟨(mem_winIdx w _).2 h1, h2⟩, ?_⟩
    simp [Prod.ext_iff]

theorem nucleusMask_inWin (L : Img) (w : Window) (lab : ℕ) (i j : ℤ)
    (h : NucleusMask L w lab i j = true) : inWin w i j = true := by
  simp only [NucleusMask, Bool.and_eq_true] at h
  exact h.1

theorem anyLabelMask_of_nucleus (L : Img) (w : Window) (lab : ℕ) (i j : ℤ)
    (hl : 0 < lab) (h : NucleusMask L w lab i j = true) :
    AnyLabelMask L w i j = true := by
  simp only [NucleusMask, Bool.and_eq_true, decide_eq_true_eq] at h
  simp only [AnyLabelMask, Bool.and_eq_true, decide_eq_true_eq]
  exact ⟨h.1, by rw [h.2]; exact hl⟩

theorem dilate_of_self (w : Window) (mask : ℤ → ℤ → Bool) (delta : ℤ) (i j : ℤ)
    (hw : inWin w i j = true) (hm : mask i j = true) :
    dilate w mask delta i j = true := by
  simp only [dilate, Bool.and_eq_true, decide_eq_true_eq]
  refine ⟨hw, ⟨(i, j), (mem_winIdx w (i, j)).2 hw, hm, ?_⟩⟩
  have h1 : (i - i) ^ 2 + (j - j) ^ 2 = 0 := by ring
  rw [h1]
  exact sq_nonneg delta

theorem cytoplasm_false_of_any_dilate (L : Img) (w : Window) (lab : ℕ)
    (delta : ℤ) (i j : ℤ)
    (h1 : AnyLabelMask L w i j = true)
    (h2 : dilate w (NucleusMask L w lab) delta i j = true) :
    CytoplasmMask L w lab delta i j = false := by
  simp [CytoplasmMask, h1, h2]

/-- Claim C1: membership in the cytoplasm pixel set is exactly: the pixel
lies in the neighborhood window and the logical xor of the any-label mask
and the disk-dilated nucleus mask holds there. -/
theorem cytoplasmCoords_eq_xor (L : Img) (w : Window) (lab : ℕ) (delta : ℤ)
    (p : ℤ × ℤ) :
    p ∈ CytoplasmCoords L w lab delta ↔
      inWin w (p.1 - w.minRow) (p.2 - w.minCol) = true ∧
        Bool.xor (AnyLabelMask L w (p.1 - w.minRow) (p.2 - w.minCol))
          (dilate w (NucleusMask L w lab) delta (p.1 - w.minRow) (p.2 - w.minCol)) =
          true :=
  mem_cytoplasmCoords L w lab delta p

/-- Claim C2 (amended): the cytoplasm mask is the symmetric difference of
the any-label mask and the dilated nucleus mask, not the one-sided set
difference: it also holds at background pixels covered by the dilation. -/
theorem cytoplasm_symmDiff (L : Img) (w : Window) (lab : ℕ) (delta : ℤ)
    (i j : ℤ) :
    CytoplasmMask L w lab delta i j =
      ((AnyLabelMask L w i j && !dilate w (NucleusMask L w lab) delta i j) ||
        (dilate w (NucleusMask L w lab) delta i j && !AnyLabelMask L w i j)) := by
  simp only [CytoplasmMask]
  generalize AnyLabelMask L w i j = x
  generalize dilate w (NucleusMask L w lab) delta i j = y
  cases x <;> cases y <;> rfl

/-- Counterexample to claim C2 as stated: in `imgC2` with `Delta = 1`, the
window-local pixel (0, 1) (a background pixel inside the dilation ring) is
in the cytoplasm mask but not in `AnyLabelMask AND NOT DilatedNucleusMask`. -/
theorem cytoplasm_not_diff_counterexample :
    CytoplasmMask imgC2 wC2 1 1 0 1 = true ∧
      (AnyLabelMask imgC2 wC2 0 1 &&
        !dilate wC2 (NucleusMask imgC2 wC2 1) 1 0 1) = false := by
  decide

/-- Claim C3 (amended): on a window pixel carrying another region's label,
the current region's cytoplasm mask is exactly the negation of the dilated
nucleus footprint: the pixel is excluded when and only when the dilated
footprint of the current nucleus covers it, and an other-nucleus pixel in
the window but outside the dilation disk is included. -/
theorem cytoplasm_excludes_other_nucleus_iff_covered (L : Img) (w : Window)
    (lab lab2 : ℕ) (delta : ℤ) (i j : ℤ)
    (hin : inWin w i j = true) (hl2 : 0 < lab2)
    (hp : L.pix (w.minRow + i) (w.minCol + j) = lab2) :
    CytoplasmMask L w lab delta i j =
      !dilate w (NucleusMask L w lab) delta i j := by
  have h1 : AnyLabelMask L w i j = true := by
    simp only [AnyLabelMask, Bool.and_eq_true, decide_eq_true_eq]
    exact ⟨hin, by rw [hp]; exact hl2⟩
  simp only [CytoplasmMask, h1]
  generalize dilate w (NucleusMask L w lab) delta i j = d
  cases d <;> rfl

/-- Witness for the amended C3: in `imgC3`, on the region-2 pixel (3, 7)
(window-local (0, 4) of region 1's window) region 1's cytoplasm mask equals
the negated dilated footprint — here the dilation does not reach, so the
pixel is included. -/
theorem cytoplasm_excludes_other_nucleus_iff_covered_witness :
    CytoplasmMask imgC3 w1C3 1 2 0 4 =
      !dilate w1C3 (NucleusMask imgC3 w1C3 1) 2 0 4 :=
  cytoplasm_excludes_other_nucleus_iff_covered imgC3 w1C3 1 2 2 0 4
    (by decide) (by decide) (by decide)

/-- Counterexample to claim C3 as stated: in `imgC3` (two adjacent
non-overlapping regions whose `Delta = 2` windows overlap), the region-2
nucleus pixel (3, 7) lies in region 1's window but outside the dilation
disk, and region 1's cytoplasm pixel set contains it. -/
theorem cytoplasm_excludes_other_nucleus_counterexample :
    imgC3.pix 5 5 = 1 ∧ imgC3.pix 5 6 = 2 ∧ imgC3.pix 3 7 = 2 ∧
      globalInWindow w1C3 5 5 ∧ globalInWindow w2C3 5 5 ∧
      (3, 7) ∈ CytoplasmCoords imgC3 w1C3 1 2 := by
  decide

/-- Claim C8: the cytoplasm pixel set of a region never contains a pixel of
that region's own nucleus. -/
theorem cytoplasm_nucleus_disjoint (L : Img) (w : Window) (lab : ℕ)
    (delta : ℤ) (p : ℤ × ℤ) (hl : 0 < lab) (hp : L.pix p.1 p.2 = lab) :
    p ∉ CytoplasmCoords L w lab delta := by
  intro hmem
  obtain ⟨hw, hcy⟩ := (mem_cytoplasmCoords L w lab delta p).1 hmem
  have hn : NucleusMask L w lab (p.1 - w.minRow) (p.2 - w.minCol) = true := by
    simp only [NucleusMask, Bool.and_eq_true, decide_eq_true_eq]
    refine ⟨hw, ?_⟩
    have e1 : w.minRow + (p.1 - w.minRow) = p.1 := by ring
    have e2 : w.minCol + (p.2 - w.minCol) = p.2 := by ring
    rw [e1, e2, hp]
  have ha := anyLabelMask_of_nucleus L w lab _ _ hl hn
  have hd := dilate_of_self w (NucleusMask L w lab) delta _ _ hw hn
  have hf := cytoplasm_false_of_any_dilate L w lab delta _ _ ha hd
  rw [hf] at hcy
  simp at hcy

/-- Witness for C8: the nucleus pixel (2, 2) of `imgC2` is not in the
cytoplasm pixel set of its own region. -/
theorem cytoplasm_nucleus_disjoint_witness :
    (2, 2) ∉ CytoplasmCoords imgC2 wC2 1 1 :=
  cytoplasm_nucleus_disjoint imgC2 wC2 1 1 (2, 2) (by decide) (by decide)

theorem inWin_sub_iff (w : Window) (r c : ℤ) :
    inWin w (r - w.minRow) (c - w.minCol) = true ↔ globalInWindow w r c := by
  simp only [inWin, globalInWindow, decide_eq_true_eq]
  omega

set_option maxRecDepth 100000 in
/-- Claim C6: for the 50 × 50 image with one rectangular region of label 1
covering rows 10–20 and columns 10–20 and `Delta = 8`, the region bounding
box is (10, 10, 21, 21) (exclusive maxima, skimage convention), `GetBounds`
returns (2, 29, 2, 29), and the resulting window slice covers exactly rows
2–28 and columns 2–28. -/
theorem window_bounds_concrete :
    bboxOf img50 1 = some (10, 10, 21, 21) ∧
      GetBounds (10, 10, 21, 21) 8 50 50 = (2, 29, 2, 29) ∧
      ∀ r c : ℤ, globalInWindow (windowOf (10, 10, 21, 21) 8 50 50) r c ↔
        2 ≤ r ∧ r ≤ 28 ∧ 2 ≤ c ∧ c ≤ 28 := by
  refine ⟨by decide, by decide, ?_⟩
  intro r c
  have hw : windowOf (10, 10, 21, 21) 8 50 50 = ⟨2, 29, 2, 29⟩ := rfl
  rw [hw]
  simp only [globalInWindow]
  omega

/-- Claim C7: the feature table has exactly one row per distinct positive
label of the label image, and an all-background label image yields the
empty table. -/
theorem table_row_count (L : Img) (In Ic : ℤ → ℤ → ℚ) (K Fs : ℕ) (Delta : ℤ)
    (attrs : ℕ → RegionAttrs) (C : Collaborators) :
    (FeatureExtraction L In Ic K Fs Delta attrs C).length = (positiveLabels L).card ∧
      ((∀ r c, L.pix r c = 0) → FeatureExtraction L In Ic K Fs Delta attrs C = []) := by
  constructor
  · simp [FeatureExtraction, sortedPositiveLabels, Finset.length_sort]
  · intro h
    have hz : positiveLabels L = ∅ := by
      apply Finset.eq_empty_iff_forall_not_mem.2
      intro v hv
      simp only [positiveLabels, Finset.mem_filter, Finset.mem_image] at hv
      obtain ⟨⟨p, hp, hpv⟩, hvpos⟩ := hv
      rw [h p.1 p.2] at hpv
      omega
    simp [FeatureExtraction, sortedPositiveLabels, hz]

/-- Witness for C7: the all-background image yields the empty table. -/
theorem table_row_count_witness :
    FeatureExtraction imgZero constIntensity constIntensity 128 6 8 trivAttrs
      trivCollab = [] :=
  (table_row_count imgZero constIntensity constIntensity 128 6 8 trivAttrs
    trivCollab).2 (fun _ _ => rfl)

/-- Claim C9: the extraction is deterministic — two calls on equal inputs
(label image, intensity images, parameters, collaborator routines) return
equal tables; the embedding is a pure function of its inputs and the source
loop reads no other state. -/
theorem extraction_deterministic (L1 L2 : Img) (In1 In2 Ic1 Ic2 : ℤ → ℤ → ℚ)
    (K1 K2 Fs1 Fs2 : ℕ) (D1 D2 : ℤ) (a1 a2 : ℕ → RegionAttrs)
    (coll1 coll2 : Collaborators)
    (hL : L1 = L2) (hIn : In1 = In2) (hIc : Ic1 = Ic2) (hK : K1 = K2)
    (hFs : Fs1 = Fs2) (hD : D1 = D2) (ha : a1 = a2) (hcoll : coll1 = coll2) :
    FeatureExtraction L1 In1 Ic1 K1 Fs1 D1 a1 coll1 =
      FeatureExtraction L2 In2 Ic2 K2 Fs2 D2 a2 coll2 := by
  subst hL hIn hIc hK hFs hD ha hcoll
  rfl

/-- Witness for C9: two identical concrete calls agree. -/
theorem extraction_deterministic_witness :
    FeatureExtraction imgZero constIntensity constIntensity 128 6 8 trivAttrs
        trivCollab =
      FeatureExtraction imgZero constIntensity constIntensity 128 6 8 trivAttrs
        trivCollab :=
  extraction_deterministic imgZero imgZero constIntensity constIntensity
    constIntensity constIntensity 128 128 6 6 8 8 trivAttrs trivAttrs
    trivCollab trivCollab rfl rfl rfl rfl rfl rfl rfl rfl

/-- Claim C10: the window slice built from `GetBounds` never covers the
image's last row or last column — the exclusive slice upper bound is
clipped to `size - 1` — so a pixel on the bottom or right image edge is
excluded from the window, from the window-restricted nucleus mask, and from
the cytoplasm pixel set. -/
theorem window_excludes_last_row_col (bbox : ℤ × ℤ × ℤ × ℤ) (delta M N : ℤ)
    (L : Img) (lab : ℕ) (r c : ℤ) :
    (globalInWindow (windowOf bbox delta M N) r c → r < M - 1 ∧ c < N - 1) ∧
      (r = M - 1 ∨ c = N - 1 →
        ¬globalInWindow (windowOf bbox delta M N) r c ∧
          NucleusMask L (windowOf bbox delta M N) lab
              (r - (windowOf bbox delta M N).minRow)
              (c - (windowOf bbox delta M N).minCol) = false ∧
          (r, c) ∉ CytoplasmCoords L (windowOf bbox delta M N) lab delta) := by
  have hmr : (windowOf bbox delta M N).maxRow = min (M - 1) (bbox.2.2.1 + delta) := rfl
  have hmc : (windowOf bbox delta M N).maxCol = min (N - 1) (bbox.2.2.2 + delta) := rfl
  have hmain : globalInWindow (windowOf bbox delta M N) r c →
      r < M - 1 ∧ c < N - 1 := by
    intro hg
    obtain ⟨h1, h2, h3, h4⟩ := hg
    rw [hmr] at h2
    rw [hmc] at h4
    omega
  refine ⟨hmain, ?_⟩
  intro h
  have hng : ¬globalInWindow (windowOf bbox delta M N) r c := by
    intro hg
    have := hmain hg
    omega
  have hiw : inWin (windowOf bbox delta M N)
      (r - (windowOf bbox delta M N).minRow)
      (c - (windowOf bbox delta M N).minCol) = false :=
    Bool.eq_false_iff.2 fun ht =>
      hng ((inWin_sub_iff (windowOf bbox delta M N) r c).1 ht)
  refine ⟨hng, by simp [NucleusMask, hiw], ?_⟩
  intro hm
  have h1 : inWin (windowOf bbox delta M N)
      (r - (windowOf bbox delta M N).minRow)
      (c - (windowOf bbox delta M N).minCol) = true :=
    ((mem_cytoplasmCoords L (windowOf bbox delta M N) lab delta (r, c)).1 hm).1
  rw [hiw] at h1
  exact Bool.false_ne_true h1

/-- Witness for C10: in the 50 × 50 image, the last row (index 49) is
outside the window of the region labelled 1 and excluded from its masks. -/
theorem window_excludes_last_row_col_witness :
    ¬globalInWindow (windowOf (10, 10, 21, 21) 8 50 50) 49 5 ∧
      NucleusMask img50 (windowOf (10, 10, 21, 21) 8 50 50) 1
          (49 - (windowOf (10, 10, 21, 21) 8 50 50).minRow)
          (5 - (windowOf (10, 10, 21, 21) 8 50 50).minCol) = false ∧
      (49, 5) ∉ CytoplasmCoords img50 (windowOf (10, 10, 21, 21) 8 50 50) 1 8 :=
  (window_excludes_last_row_col (10, 10, 21, 21) 8 50 50 img50 1 49 5).2
    (by decide)
